import Mathlib

/-!
Verification development for the jumbo CLI event-sourcing core and its
file-configuration collaborators.

The command-handler orchestration is translated from
AddGoalCommandHandler (execute and updatePreviousGoalNextGoalId).  The
Goal aggregate and the AddGoalCommand shape are not among the provided
source files, so they are modelled from the specification of the
aggregate state machine (create, add, update, rehydrate).  Side effects
(event-store appends, event-bus publications, read-model lookups and
stream reads) are recorded in an explicit action trace, and an
environment decides which store and bus operations succeed.

The settings merger, the three assistant configurers and the unprimed
qualifier are translated directly from their source files; file-system
operations are given an explicit world state plus a failure oracle.
-/

/-- Modelled from the spec: the embedded-context payload with the eight
fixed optional fields of an add-goal command (step 2 of the
orchestration algorithm).  The AddGoalCommand type itself is not in the
provided sources. -/
structure EmbeddedContext where
  relevantInvariants : Option String := none
  relevantGuidelines : Option String := none
  relevantDependencies : Option String := none
  relevantComponents : Option String := none
  architecture : Option String := none
  filesToBeCreated : Option String := none
  filesToBeChanged : Option String := none
  nextGoalId : Option String := none
deriving DecidableEq

/-- Modelled from the spec: an AddGoalCommand carries the required
lifecycle fields, the eight optional embedded-context fields and the
optional previousGoalId used for chaining. -/
structure AddGoalCommand where
  objective : String
  successCriteria : String
  scopeIn : String
  scopeOut : String
  boundaries : String
  relevantInvariants : Option String := none
  relevantGuidelines : Option String := none
  relevantDependencies : Option String := none
  relevantComponents : Option String := none
  architecture : Option String := none
  filesToBeCreated : Option String := none
  filesToBeChanged : Option String := none
  nextGoalId : Option String := none
  previousGoalId : Option String := none
deriving DecidableEq

/-- Modelled from the spec: payload of the event produced by Goal.add,
one stream event whose payload matches the required command fields plus
the optional embedded context. -/
structure GoalAddedEvent where
  streamId : String
  objective : String
  successCriteria : String
  scopeIn : String
  scopeOut : String
  boundaries : String
  embeddedContext : Option EmbeddedContext := none
deriving DecidableEq

/-- Modelled from the spec: payload of the event produced by Goal.update,
carrying only the provided partial fields (absent fields stay none). -/
structure GoalUpdatedEvent where
  streamId : String
  objective : Option String := none
  successCriteria : Option String := none
  scopeIn : Option String := none
  scopeOut : Option String := none
  boundaries : Option String := none
  embeddedContext : Option EmbeddedContext := none
deriving DecidableEq

/-- The nextGoalId carried inside an update event payload. -/
def GoalUpdatedEvent.payloadNextGoalId (e : GoalUpdatedEvent) : Option String :=
  e.embeddedContext.bind EmbeddedContext.nextGoalId

/-- Domain events of the goal aggregate. -/
inductive DomainEvent where
  | added (e : GoalAddedEvent)
  | updated (e : GoalUpdatedEvent)
deriving DecidableEq

/-- Stream identity of a domain event. -/
def DomainEvent.streamId : DomainEvent → String
  | .added e => e.streamId
  | .updated e => e.streamId

/-- Modelled from the spec: the Goal aggregate state, an in-memory
projection of one stream with identity, lifecycle fields and linkage. -/
structure Goal where
  id : String
  objective : Option String := none
  successCriteria : Option String := none
  scopeIn : Option String := none
  scopeOut : Option String := none
  boundaries : Option String := none
  embeddedContext : Option EmbeddedContext := none
deriving DecidableEq

/-- Errors surfaced by the command handler and the aggregate. -/
inductive HandlerError where
  | validation (field : String)
  | notFound (goalId : String)
  | configuration
  | storeUnavailable
  | publishFailed
  | corruptHistory
deriving DecidableEq

/-- Modelled from the spec: Goal.create produces an aggregate scaffold
with identity only and no events. -/
def Goal.create (id : String) : Goal := { id := id }

/-- Modelled from the spec: Goal.add validates that the required fields
are present (failing with a ValidationError naming the missing field)
and returns exactly one added event on the aggregate stream. -/
def Goal.add (goal : Goal) (objective successCriteria scopeIn scopeOut boundaries : String)
    (embeddedContext : Option EmbeddedContext) : Except HandlerError GoalAddedEvent :=
  if objective = "" then .error (.validation "objective")
  else if successCriteria = "" then .error (.validation "successCriteria")
  else if scopeIn = "" then .error (.validation "scopeIn")
  else if scopeOut = "" then .error (.validation "scopeOut")
  else if boundaries = "" then .error (.validation "boundaries")
  else .ok { streamId := goal.id, objective := objective, successCriteria := successCriteria,
             scopeIn := scopeIn, scopeOut := scopeOut, boundaries := boundaries,
             embeddedContext := embeddedContext }

/-- Modelled from the spec: Goal.update on a rehydrated aggregate returns
one update event on the aggregate stream whose payload carries exactly
the provided partial fields. -/
def Goal.update (goal : Goal) (objective successCriteria scopeIn scopeOut boundaries : Option String)
    (embeddedContext : Option EmbeddedContext) : GoalUpdatedEvent :=
  { streamId := goal.id, objective := objective, successCriteria := successCriteria,
    scopeIn := scopeIn, scopeOut := scopeOut, boundaries := boundaries,
    embeddedContext := embeddedContext }

/-- Modelled from the spec: seed aggregate state from the initial added
event of a stream. -/
def Goal.fromAdded (id : String) (e : GoalAddedEvent) : Goal :=
  { id := id, objective := some e.objective, successCriteria := some e.successCriteria,
    scopeIn := some e.scopeIn, scopeOut := some e.scopeOut, boundaries := some e.boundaries,
    embeddedContext := e.embeddedContext }

/-- Modelled from the spec: folding one subsequent event into aggregate
state; a second added event in a stream is out of order. -/
def Goal.applyEvent (goal : Goal) : DomainEvent → Except HandlerError Goal
  | .added _ => .error .corruptHistory
  | .updated e =>
    .ok { goal with
      objective := e.objective.orElse fun _ => goal.objective,
      successCriteria := e.successCriteria.orElse fun _ => goal.successCriteria,
      scopeIn := e.scopeIn.orElse fun _ => goal.scopeIn,
      scopeOut := e.scopeOut.orElse fun _ => goal.scopeOut,
      boundaries := e.boundaries.orElse fun _ => goal.boundaries,
      embeddedContext := e.embeddedContext.orElse fun _ => goal.embeddedContext }

/-- Modelled from the spec: Goal.rehydrate folds a stream history left to
right, failing with CorruptHistoryError when the history does not start
with an added event or contains an out-of-order event. -/
def Goal.rehydrate (id : String) (history : List DomainEvent) : Except HandlerError Goal :=
  match history with
  | .added e :: rest => rest.foldlM Goal.applyEvent (Goal.fromAdded id e)
  | _ => .error .corruptHistory

/-- Decidable equality for fallible results, used to evaluate concrete
executions in witnesses. -/
instance exceptDecEq {e a : Type} [DecidableEq e] [DecidableEq a] :
    DecidableEq (Except e a) := fun x y =>
  match x, y with
  | .error u, .error v =>
    if h : u = v then .isTrue (by rw [h]) else .isFalse (by simp [h])
  | .error _, .ok _ => .isFalse (by simp)
  | .ok _, .error _ => .isFalse (by simp)
  | .ok u, .ok v =>
    if h : u = v then .isTrue (by rw [h]) else .isFalse (by simp [h])

/-- Modelled from the spec: the summary returned by the read-optimized
finder (IGoalUpdateReader.findById). -/
structure GoalSummary where
  goalId : String
deriving DecidableEq

/-- One observable side effect of the command handler: a store append, a
bus publication, a finder lookup or a stream read.  Appends and
publications are recorded when the corresponding port call completes
successfully. -/
inductive TraceAction where
  | append (e : DomainEvent)
  | publish (e : DomainEvent)
  | findById (id : String)
  | readStream (id : String)
deriving DecidableEq

/-- Environment of one command execution: which append and publish calls
succeed, what the finder returns, and the stored histories. -/
structure Env where
  appendOk : DomainEvent → Bool
  publishOk : DomainEvent → Bool
  findById : String → Option GoalSummary
  readStream : String → List DomainEvent

/-- Presence of the three optional chaining collaborators of
AddGoalCommandHandler (updateEventWriter, updateEventReader, goalReader). -/
structure HandlerDeps where
  hasUpdateEventWriter : Bool
  hasUpdateEventReader : Bool
  hasGoalReader : Bool
deriving DecidableEq

/-- Embedded-context construction of AddGoalCommandHandler.execute: the
payload is passed to the aggregate exactly when at least one of the
eight optional fields is present on the command, and omitted entirely
otherwise. -/
def buildEmbeddedContext (command : AddGoalCommand) : Option EmbeddedContext :=
  if command.relevantInvariants.isSome || command.relevantGuidelines.isSome ||
      command.relevantDependencies.isSome || command.relevantComponents.isSome ||
      command.architecture.isSome || command.filesToBeCreated.isSome ||
      command.filesToBeChanged.isSome || command.nextGoalId.isSome then
    some { relevantInvariants := command.relevantInvariants,
           relevantGuidelines := command.relevantGuidelines,
           relevantDependencies := command.relevantDependencies,
           relevantComponents := command.relevantComponents,
           architecture := command.architecture,
           filesToBeCreated := command.filesToBeCreated,
           filesToBeChanged := command.filesToBeChanged,
           nextGoalId := command.nextGoalId }
  else none

/-- The single added event produced by the domain logic of
AddGoalCommandHandler.execute (Goal.create plus Goal.add on the command
fields and the built embedded context). -/
def addedEvent (goalId : String) (command : AddGoalCommand) : Except HandlerError GoalAddedEvent :=
  (Goal.create goalId).add command.objective command.successCriteria command.scopeIn
    command.scopeOut command.boundaries (buildEmbeddedContext command)

/-- AddGoalCommandHandler.updatePreviousGoalNextGoalId: requires the
three chaining collaborators, checks existence via the finder, rehydrates
the previous goal from its history, then appends and publishes one
update event pointing nextGoalId at the new goal. -/
def updatePreviousGoalNextGoalId (deps : HandlerDeps) (env : Env)
    (previousGoalId newGoalId : String) : Except HandlerError Unit × List TraceAction :=
  if deps.hasUpdateEventWriter && deps.hasUpdateEventReader && deps.hasGoalReader then
    match env.findById previousGoalId with
    | none => (.error (.notFound previousGoalId), [.findById previousGoalId])
    | some _ =>
      match Goal.rehydrate previousGoalId (env.readStream previousGoalId) with
      | .error e => (.error e, [.findById previousGoalId, .readStream previousGoalId])
      | .ok previousGoal =>
        let updateEvent := previousGoal.update none none none none none
          (some { nextGoalId := some newGoalId })
        if env.appendOk (.updated updateEvent) then
          if env.publishOk (.updated updateEvent) then
            (.ok (), [.findById previousGoalId, .readStream previousGoalId,
                      .append (.updated updateEvent), .publish (.updated updateEvent)])
          else
            (.error .publishFailed,
             [.findById previousGoalId, .readStream previousGoalId,
              .append (.updated updateEvent)])
        else
          (.error .storeUnavailable,
           [.findById previousGoalId, .readStream previousGoalId])
  else
    (.error .configuration, [])

/-- AddGoalCommandHandler.execute: produce the added event, append it,
publish it, then run the chaining step when previousGoalId is set.  The
result pairs the command outcome with the trace of completed side
effects in execution order. -/
def execute (deps : HandlerDeps) (env : Env) (goalId : String) (command : AddGoalCommand) :
    Except HandlerError String × List TraceAction :=
  match addedEvent goalId command with
  | .error e => (.error e, [])
  | .ok event =>
    if env.appendOk (.added event) then
      if env.publishOk (.added event) then
        match command.previousGoalId with
        | none => (.ok goalId, [.append (.added event), .publish (.added event)])
        | some previousGoalId =>
          match updatePreviousGoalNextGoalId deps env previousGoalId goalId with
          | (.ok _, chainTrace) =>
            (.ok goalId, .append (.added event) :: .publish (.added event) :: chainTrace)
          | (.error e, chainTrace) =>
            (.error e, .append (.added event) :: .publish (.added event) :: chainTrace)
      else
        (.error .publishFailed, [.append (.added event)])
    else
      (.error .storeUnavailable, [])

/-- Holds when every publication in the trace is of an event previously
appended (the first argument accumulates the events appended so far). -/
def pubAfterApp (appended : List DomainEvent) : List TraceAction → Prop
  | [] => True
  | .append e :: rest => pubAfterApp (e :: appended) rest
  | .publish e :: rest => e ∈ appended ∧ pubAfterApp appended rest
  | .findById _ :: rest => pubAfterApp appended rest
  | .readStream _ :: rest => pubAfterApp appended rest

/-- Update events appended in a trace, in order. -/
def updateAppends (trace : List TraceAction) : List GoalUpdatedEvent :=
  trace.filterMap fun a =>
    match a with
    | .append (.updated u) => some u
    | _ => none

/-- Update events published in a trace, in order. -/
def updatePublishes (trace : List TraceAction) : List GoalUpdatedEvent :=
  trace.filterMap fun a =>
    match a with
    | .publish (.updated u) => some u
    | _ => none

/-- Events appended to one particular stream, in order. -/
def appendsTo (streamId : String) (trace : List TraceAction) : List DomainEvent :=
  trace.filterMap fun a =>
    match a with
    | .append e => if e.streamId = streamId then some e else none
    | _ => none

/-- A concrete add-goal command without chaining, used as witness input. -/
def cmd0 : AddGoalCommand :=
  { objective := "o", successCriteria := "s", scopeIn := "i", scopeOut := "x",
    boundaries := "b" }

/-- A concrete add-goal command requesting chaining to goal_prev. -/
def cmdChain : AddGoalCommand := { cmd0 with previousGoalId := some "goal_prev" }

/-- Handler dependencies with all three chaining collaborators present. -/
def depsAll : HandlerDeps := { hasUpdateEventWriter := true, hasUpdateEventReader := true, hasGoalReader := true }

/-- Handler dependencies with the update event writer absent. -/
def depsNone : HandlerDeps := { hasUpdateEventWriter := false, hasUpdateEventReader := true, hasGoalReader := true }

/-- The added event produced for cmd0 on the stream goal_new. -/
def addedEv0 : GoalAddedEvent :=
  { streamId := "goal_new", objective := "o", successCriteria := "s", scopeIn := "i",
    scopeOut := "x", boundaries := "b" }

/-- The initial added event of the previous goal stream. -/
def prevAddedEv : GoalAddedEvent :=
  { streamId := "goal_prev", objective := "p", successCriteria := "s",
    scopeIn := "i", scopeOut := "x", boundaries := "b" }

/-- A one-event history for the previous goal stream. -/
def prevHistory : List DomainEvent := [.added prevAddedEv]

/-- An environment in which every port operation succeeds. -/
def envAllOk : Env :=
  { appendOk := fun _ => true, publishOk := fun _ => true,
    findById := fun i => some { goalId := i }, readStream := fun _ => prevHistory }

/-- An environment whose finder finds nothing. -/
def envNoFind : Env := { envAllOk with findById := fun _ => none }

/-- Hook entry of the Gemini CLI settings file (SafeGeminiSettingsMerger). -/
structure GeminiHook where
  type : String
  command : String
deriving DecidableEq

/-- SessionStart matcher entry of the Gemini CLI settings file. -/
structure GeminiSessionStartMatcher where
  matcher : String
  hooks : List GeminiHook
deriving DecidableEq

/-- Hooks section of the Gemini CLI settings file. -/
structure GeminiHooks where
  SessionStart : Option (List GeminiSessionStartMatcher) := none
deriving DecidableEq

/-- Gemini CLI settings value. -/
structure GeminiSettings where
  hooks : Option GeminiHooks := none
deriving DecidableEq

/-- Insertion-ordered map update keyed by hook command: replace the first
entry carrying the same command in place, otherwise append.  This is the
Map.set semantics of the hookMap built by mergeSessionStartHooks. -/
def setHook : List GeminiHook → GeminiHook → List GeminiHook
  | [], h => [h]
  | x :: xs, h => if x.command = h.command then h :: xs else x :: setHook xs h

/-- Hook merging within one matcher of
SafeGeminiSettingsMerger.mergeSessionStartHooks: existing hooks, then new
hooks, into an insertion-ordered map keyed by command. -/
def mergeHookLists (existing additions : List GeminiHook) : List GeminiHook :=
  additions.foldl setHook (existing.foldl setHook [])

/-- One step of SafeGeminiSettingsMerger.mergeSessionStartHooks: merge the
new matcher into the first existing matcher with the same matcher type
(findIndex plus in-place update), or push it at the end. -/
def mergeOneMatcher : List GeminiSessionStartMatcher → GeminiSessionStartMatcher →
    List GeminiSessionStartMatcher
  | [], nm => [nm]
  | m :: ms, nm =>
    if m.matcher = nm.matcher then
      { m with hooks := mergeHookLists m.hooks nm.hooks } :: ms
    else
      m :: mergeOneMatcher ms nm

/-- SafeGeminiSettingsMerger.mergeSessionStartHooks. -/
def mergeSessionStartHooks (existing additions : List GeminiSessionStartMatcher) :
    List GeminiSessionStartMatcher :=
  additions.foldl mergeOneMatcher existing

/-- SafeGeminiSettingsMerger.deepMerge: hooks are merged recursively, the
SessionStart arrays through mergeSessionStartHooks, other user settings
are preserved. -/
def deepMerge (existing newSettings : GeminiSettings) : GeminiSettings :=
  match newSettings.hooks with
  | none => existing
  | some nh =>
    let resultHooks := existing.hooks.getD { SessionStart := none }
    match nh.SessionStart with
    | none => { existing with hooks := some resultHooks }
    | some newSS =>
      { existing with hooks := some { resultHooks with
          SessionStart := some (mergeSessionStartHooks
            ((existing.hooks.bind GeminiHooks.SessionStart).getD []) newSS) } }

/-- SafeGeminiSettingsMerger.validateSettings on the typed settings value:
every SessionStart matcher carries a nonempty matcher string and hooks
whose type is command. -/
def validateSettings (settings : GeminiSettings) : Bool :=
  match settings.hooks with
  | none => true
  | some hs =>
    match hs.SessionStart with
    | none => true
    | some l => l.all fun m => m.matcher != "" && m.hooks.all fun h => h.type == "command"

/-- Commands of a hook list, in order. -/
def hookKeys (l : List GeminiHook) : List String := l.map GeminiHook.command

/-- First hook of a list carrying the given command. -/
def hookVal : List GeminiHook → String → Option GeminiHook
  | [], _ => none
  | h :: t, c => if h.command = c then some h else hookVal t c

/-- Last hook of a list carrying the given command. -/
def hookLast : List GeminiHook → String → Option GeminiHook
  | [], _ => none
  | h :: t, c =>
    match hookLast t c with
    | some x => some x
    | none => if h.command = c then some h else none

/-- Hooks of a matcher batch, concatenated in order. -/
def flatHooks : List GeminiSessionStartMatcher → List GeminiHook
  | [] => []
  | m :: ms => m.hooks ++ flatHooks ms

/-- Folding a batch of matcher updates into one matcher record, the way
repeated mergeOneMatcher hits on the same position do. -/
def applyAllMatcher (m : GeminiSessionStartMatcher)
    (as : List GeminiSessionStartMatcher) : GeminiSessionStartMatcher :=
  as.foldl (fun cur nm => { cur with hooks := mergeHookLists cur.hooks nm.hooks }) m

/-- Matchers supplied by the new settings of a merge. -/
def newSettingsMatchers (s : GeminiSettings) : List GeminiSessionStartMatcher :=
  match s.hooks with
  | some hs => hs.SessionStart.getD []
  | none => []

/-- File-system state relevant to mergeSettings: the settings.json content
and the content of the freshly named backup file. -/
structure SettingsWorld where
  settings : Option String := none
  backup : Option String := none
deriving DecidableEq

/-- Failure oracle and external JSON functions for one mergeSettings call:
one flag per fallible file operation at its call site, plus JSON.parse and
JSON.stringify as environment functions.  A failing write is not atomic:
it leaves writeRemnant, the partially written content, in the file. -/
structure MergeFsOracle where
  ensureDirFails : Bool := false
  pathExistsBackupCheckFails : Bool := false
  copyBackupFails : Bool := false
  pathExistsReadCheckFails : Bool := false
  readFails : Bool := false
  parse : String → Except String GeminiSettings
  serialize : GeminiSettings → String
  writeFails : Bool := false
  writeRemnant : Option String := none
  pathExistsRollbackFails : Bool := false
  copyRollbackFails : Bool := false

/-- Steps 3 to 5 of SafeGeminiSettingsMerger.mergeSettings: deep merge,
validate the merged value and write it back.  A failing write leaves the
partially written remnant as the file content. -/
def mergeWriteBack (o : MergeFsOracle) (w : SettingsWorld)
    (existing newSettings : GeminiSettings) : Except String Unit × SettingsWorld :=
  let merged := deepMerge existing newSettings
  if validateSettings merged then
    if o.writeFails then (.error "writeFile failed", { w with settings := o.writeRemnant })
    else (.ok (), { w with settings := some (o.serialize merged) })
  else (.error "merged settings validation failed", w)

/-- Body of the try block of SafeGeminiSettingsMerger.mergeSettings (steps
2 to 5): read and validate the existing settings when the file exists,
then merge, validate and write. -/
def mergeTry (o : MergeFsOracle) (w : SettingsWorld) (newSettings : GeminiSettings) :
    Except String Unit × SettingsWorld :=
  if o.pathExistsReadCheckFails then (.error "pathExists failed", w)
  else
    match w.settings with
    | none => mergeWriteBack o w {} newSettings
    | some content =>
      if o.readFails then (.error "readFile failed", w)
      else
        match o.parse content with
        | .error m => (.error ("Invalid settings.json: " ++ m), w)
        | .ok parsed =>
          if validateSettings parsed then mergeWriteBack o w parsed newSettings
          else (.error "Invalid settings.json: validation failed", w)

/-- Catch clause of SafeGeminiSettingsMerger.mergeSettings (step 7): on a
body error, restore settings.json from the backup when one exists, then
rethrow. -/
def mergeGuarded (o : MergeFsOracle) (w : SettingsWorld) (newSettings : GeminiSettings) :
    Except String Unit × SettingsWorld :=
  match mergeTry o w newSettings with
  | (.ok u, w1) => (.ok u, w1)
  | (.error e, w1) =>
    if o.pathExistsRollbackFails then (.error "pathExists failed", w1)
    else
      match w1.backup with
      | some b =>
        if o.copyRollbackFails then (.error "copy failed", w1)
        else (.error e, { w1 with settings := some b })
      | none => (.error e, w1)

/-- SafeGeminiSettingsMerger.mergeSettings: ensure the directory, back the
settings file up when it exists (step 1, outside the try block), then run
the guarded body. -/
def mergeSettingsModel (o : MergeFsOracle) (w : SettingsWorld)
    (newSettings : GeminiSettings) : Except String Unit × SettingsWorld :=
  if o.ensureDirFails then (.error "ensureDir failed", w)
  else if o.pathExistsBackupCheckFails then (.error "pathExists failed", w)
  else
    match w.settings with
    | some content =>
      if o.copyBackupFails then (.error "copy failed", w)
      else mergeGuarded o { w with backup := some content } newSettings
    | none => mergeGuarded o w newSettings

/-- Failure oracle for the GEMINI.md and CURSOR.md ensure operations. -/
structure MdOracle where
  pathExistsFails : Bool := false
  readFails : Bool := false
  writeCreateFails : Bool := false
  writeAppendFails : Bool := false

/-- Body of GeminiConfigurer.ensureGeminiMd (inside its try block): create
the file with the reference when absent, append the reference when the
content does not mention AGENTS.md, otherwise leave the file alone. -/
def ensureGeminiMdTry (o : MdOracle) (reference : String) (file : Option String) :
    Except String Unit × Option String :=
  if o.pathExistsFails then (.error "pathExists failed", file)
  else
    match file with
    | none =>
      if o.writeCreateFails then (.error "writeFile failed", file)
      else (.ok (), some (reference.trim ++ "\n"))
    | some content =>
      if o.readFails then (.error "readFile failed", file)
      else if (content.splitOn "AGENTS.md").length > 1 then (.ok (), file)
      else if o.writeAppendFails then (.error "writeFile failed", file)
      else (.ok (), some (content.trimRight ++ "\n" ++ reference))

/-- GeminiConfigurer.ensureGeminiMd: the try body with its catch clause
turning any error into a logged warning. -/
def ensureGeminiMd (o : MdOracle) (reference : String) (file : Option String) :
    Except String Unit × Option String × List String :=
  match ensureGeminiMdTry o reference file with
  | (.ok _, f) => (.ok (), f, [])
  | (.error e, f) => (.ok (), f, ["Warning: Failed to update GEMINI.md: " ++ e])

/-- The hook command written by GeminiConfigurer.ensureGeminiSettings. -/
def jumboStartHook : GeminiHook := { type := "command", command := "jumbo session start" }

/-- The SessionStart matcher written by GeminiConfigurer. -/
def jumboMatcher : GeminiSessionStartMatcher :=
  { matcher := "startup", hooks := [jumboStartHook] }

/-- The settings fragment merged by GeminiConfigurer.ensureGeminiSettings. -/
def jumboHook : GeminiSettings :=
  { hooks := some { SessionStart := some [jumboMatcher] } }

/-- GeminiConfigurer.ensureGeminiSettings: merge the jumbo hook through the
safe merger, catching any error as a warning. -/
def ensureGeminiSettings (o : MergeFsOracle) (w : SettingsWorld) :
    Except String Unit × SettingsWorld × List String :=
  match mergeSettingsModel o w jumboHook with
  | (.ok _, w1) => (.ok (), w1, [])
  | (.error e, w1) => (.ok (), w1, ["Warning: Failed to configure Gemini CLI hook: " ++ e])

/-- File-system state touched by GeminiConfigurer. -/
structure GeminiWorld where
  geminiMd : Option String := none
  settingsWorld : SettingsWorld := {}

/-- GeminiConfigurer.configure: ensure GEMINI.md, then the settings hook. -/
def GeminiConfigurer.configure (o1 : MdOracle) (o2 : MergeFsOracle) (reference : String)
    (w : GeminiWorld) : Except String Unit × GeminiWorld × List String :=
  match ensureGeminiMd o1 reference w.geminiMd with
  | (.error e, md1, warns) => (.error e, { w with geminiMd := md1 }, warns)
  | (.ok _, md1, warns) =>
    match ensureGeminiSettings o2 w.settingsWorld with
    | (r, s1, warns2) => (r, { geminiMd := md1, settingsWorld := s1 }, warns ++ warns2)

/-- Failure oracle for the Copilot instructions ensure operation. -/
structure CopilotOracle where
  ensureDirFails : Bool := false
  pathExistsFails : Bool := false
  readFails : Bool := false
  writeCreateFails : Bool := false
  writeAppendFails : Bool := false

/-- Body of CopilotConfigurer.ensureCopilotInstructions (inside its try
block): ensure the directory, create the instruction file when absent,
append the jumbo section when its marker is missing. -/
def ensureCopilotInstructionsTry (o : CopilotOracle) (instructions marker : String)
    (file : Option String) : Except String Unit × Option String :=
  if o.ensureDirFails then (.error "ensureDir failed", file)
  else if o.pathExistsFails then (.error "pathExists failed", file)
  else
    match file with
    | none =>
      if o.writeCreateFails then (.error "writeFile failed", file)
      else (.ok (), some instructions)
    | some content =>
      if o.readFails then (.error "readFile failed", file)
      else if (content.splitOn marker).length > 1 then (.ok (), file)
      else if o.writeAppendFails then (.error "writeFile failed", file)
      else (.ok (), some (content ++ "\n\n" ++ instructions))

/-- CopilotConfigurer.ensureCopilotInstructions with its catch clause. -/
def ensureCopilotInstructions (o : CopilotOracle) (instructions marker : String)
    (file : Option String) : Except String Unit × Option String × List String :=
  match ensureCopilotInstructionsTry o instructions marker file with
  | (.ok _, f) => (.ok (), f, [])
  | (.error e, f) =>
    (.ok (), f, ["Warning: Failed to update .github/copilot-instructions.md: " ++ e])

/-- CopilotConfigurer.configure. -/
def CopilotConfigurer.configure (o : CopilotOracle) (instructions marker : String)
    (file : Option String) : Except String Unit × Option String × List String :=
  ensureCopilotInstructions o instructions marker file

/-- Body of CursorConfigurer.ensureCursorMd (inside its try block),
mirroring the GEMINI.md logic for CURSOR.md. -/
def ensureCursorMdTry (o : MdOracle) (reference : String) (file : Option String) :
    Except String Unit × Option String :=
  if o.pathExistsFails then (.error "pathExists failed", file)
  else
    match file with
    | none =>
      if o.writeCreateFails then (.error "writeFile failed", file)
      else (.ok (), some (reference.trim ++ "\n"))
    | some content =>
      if o.readFails then (.error "readFile failed", file)
      else if (content.splitOn "AGENTS.md").length > 1 then (.ok (), file)
      else if o.writeAppendFails then (.error "writeFile failed", file)
      else (.ok (), some (content.trimRight ++ "\n" ++ reference))

/-- CursorConfigurer.ensureCursorMd with its catch clause. -/
def ensureCursorMd (o : MdOracle) (reference : String) (file : Option String) :
    Except String Unit × Option String × List String :=
  match ensureCursorMdTry o reference file with
  | (.ok _, f) => (.ok (), f, [])
  | (.error e, f) => (.ok (), f, ["Warning: Failed to update CURSOR.md: " ++ e])

/-- Failure oracle for the Cursor rule ensure operation. -/
structure CursorRuleOracle where
  ensureDirFails : Bool := false
  pathExistsFails : Bool := false
  readFails : Bool := false
  writeCreateFails : Bool := false
  writeRecreateFails : Bool := false

/-- CursorConfigurer.getJumboRuleContent: YAML frontmatter plus the shared
jumbo section. -/
def getJumboRuleContent (jumboSection : String) : String :=
  "---\ndescription: Jumbo context management instructions\nalwaysApply: true\n---\n\n"
    ++ jumboSection

/-- Body of CursorConfigurer.ensureCursorRule (inside its try block):
ensure the rule directory, create the rule when absent, recreate it when
its jumbo marker is missing. -/
def ensureCursorRuleTry (o : CursorRuleOracle) (jumboSection marker : String)
    (file : Option String) : Except String Unit × Option String :=
  if o.ensureDirFails then (.error "ensureDir failed", file)
  else if o.pathExistsFails then (.error "pathExists failed", file)
  else
    match file with
    | none =>
      if o.writeCreateFails then (.error "writeFile failed", file)
      else (.ok (), some (getJumboRuleContent jumboSection))
    | some content =>
      if o.readFails then (.error "readFile failed", file)
      else if (content.splitOn marker).length > 1 then (.ok (), file)
      else if o.writeRecreateFails then (.error "writeFile failed", file)
      else (.ok (), some (getJumboRuleContent jumboSection))

/-- CursorConfigurer.ensureCursorRule with its catch clause. -/
def ensureCursorRule (o : CursorRuleOracle) (jumboSection marker : String)
    (file : Option String) : Except String Unit × Option String × List String :=
  match ensureCursorRuleTry o jumboSection marker file with
  | (.ok _, f) => (.ok (), f, [])
  | (.error e, f) =>
    (.ok (), f, ["Warning: Failed to update .cursor/rules/jumbo/RULE.md: " ++ e])

/-- File-system state touched by CursorConfigurer. -/
structure CursorWorld where
  cursorMd : Option String := none
  cursorRule : Option String := none

/-- CursorConfigurer.configure: ensure CURSOR.md, then the rule file. -/
def CursorConfigurer.configure (o1 : MdOracle) (o2 : CursorRuleOracle)
    (reference jumboSection marker : String) (w : CursorWorld) :
    Except String Unit × CursorWorld × List String :=
  match ensureCursorMd o1 reference w.cursorMd with
  | (.error e, md1, warns) => (.error e, { w with cursorMd := md1 }, warns)
  | (.ok _, md1, warns) =>
    match ensureCursorRule o2 jumboSection marker w.cursorRule with
    | (r, r1, warns2) => (r, { cursorMd := md1, cursorRule := r1 }, warns ++ warns2)

/-- SolutionContextView: aggregated view of all recorded solution context;
the element view types stay abstract. -/
structure SolutionContextView (Arch Comp Dec Inv Guide : Type) where
  architecture : Option Arch
  components : List Comp
  decisions : List Dec
  invariants : List Inv
  guidelines : List Guide

/-- UnprimedBrownfieldQualifier.isUnprimed on the context view returned by
the solution context reader: the project is primed when any solution
context exists, and unprimed otherwise. -/
def isUnprimed {Arch Comp Dec Inv Guide : Type}
    (context : SolutionContextView Arch Comp Dec Inv Guide) : Bool :=
  let hasArchitecture := context.architecture.isSome
  let hasComponents := decide (context.components.length > 0)
  let hasDecisions := decide (context.decisions.length > 0)
  let hasInvariants := decide (context.invariants.length > 0)
  let hasGuidelines := decide (context.guidelines.length > 0)
  let isPrimed := hasArchitecture || hasComponents || hasDecisions ||
    hasInvariants || hasGuidelines
  !isPrimed


/-- An oracle whose JSON parse always fails, used as witness input. -/
def badParseOracle : MergeFsOracle :=
  { parse := fun _ => .error "bad", serialize := fun _ => "x" }

/-- A settings world holding unparsable content, used as witness input. -/
def wGarbage : SettingsWorld := { settings := some "garbage" }


/-- A settings value whose single matcher repeats one hook command, used
by the idempotence counterexample. -/
def dupHookSettings : GeminiSettings :=
  { hooks := some { SessionStart := some [{ matcher := "startup", hooks := [{ type := "command", command := "x" }, { type := "command", command := "x" }] }] } }


/-- An oracle whose write step fails halfway leaving partial content and
whose rollback copy also fails, used by the atomicity counterexample. -/
def cexOracle : MergeFsOracle :=
  { parse := fun _ => .ok {}, serialize := fun _ => "x", writeFails := true,
    writeRemnant := some "partial", copyRollbackFails := true }

/-- A settings world holding well-formed content, used by the atomicity
counterexample. -/
def wBefore : SettingsWorld := { settings := some "before" }

/-- Applying one event never changes the aggregate identity. -/
lemma Goal.applyEvent_id (goal : Goal) (ev : DomainEvent) (g : Goal)
    (h : Goal.applyEvent goal ev = .ok g) : g.id = goal.id := by
  cases ev with
  | added e => simp [Goal.applyEvent] at h
  | updated e =>
    simp only [Goal.applyEvent] at h
    cases h
    rfl

/-- Folding events never changes the aggregate identity. -/
lemma Goal.foldl_applyEvent_id :
    ∀ (rest : List DomainEvent) (g0 g : Goal),
      rest.foldlM Goal.applyEvent g0 = .ok g → g.id = g0.id := by
  intro rest
  induction rest with
  | nil =>
    intro g0 g h
    simp only [List.foldlM_nil] at h
    cases h
    rfl
  | cons ev rest ih =>
    intro g0 g h
    simp only [List.foldlM_cons] at h
    cases h1 : Goal.applyEvent g0 ev with
    | error e =>
      rw [h1] at h
      simp only [Bind.bind, Except.bind] at h
      exact Except.noConfusion h
    | ok g1 =>
      rw [h1] at h
      simp only [Bind.bind, Except.bind] at h
      exact (ih g1 g h).trans (Goal.applyEvent_id g0 ev g1 h1)

/-- A rehydrated aggregate carries the identity it was rehydrated for. -/
lemma Goal.rehydrate_id (id : String) (history : List DomainEvent) (g : Goal)
    (h : Goal.rehydrate id history = .ok g) : g.id = id := by
  cases history with
  | nil => simp [Goal.rehydrate] at h
  | cons ev rest =>
    cases ev with
    | added e =>
      simp only [Goal.rehydrate] at h
      exact (Goal.foldl_applyEvent_id rest (Goal.fromAdded id e) g h).trans rfl
    | updated e => simp [Goal.rehydrate] at h

/-- A successfully produced added event lives on the new goal stream. -/
lemma addedEvent_streamId (goalId : String) (command : AddGoalCommand) (a : GoalAddedEvent)
    (h : addedEvent goalId command = .ok a) : a.streamId = goalId := by
  unfold addedEvent Goal.add at h
  repeat' split at h
  all_goals first
    | exact Except.noConfusion h
    | (cases h; rfl)

/-- Exhaustive description of the outcomes of the chaining step. -/
lemma chain_cases (deps : HandlerDeps) (env : Env) (p nid : String) :
    (updatePreviousGoalNextGoalId deps env p nid = (.error .configuration, []) ∧
      (deps.hasUpdateEventWriter && deps.hasUpdateEventReader && deps.hasGoalReader) = false) ∨
    (updatePreviousGoalNextGoalId deps env p nid = (.error (.notFound p), [.findById p]) ∧
      env.findById p = none) ∨
    (∃ e, Goal.rehydrate p (env.readStream p) = .error e ∧
      updatePreviousGoalNextGoalId deps env p nid =
        (.error e, [.findById p, .readStream p])) ∨
    (∃ g u, Goal.rehydrate p (env.readStream p) = .ok g ∧
      u = g.update none none none none none (some { nextGoalId := some nid }) ∧
      ((updatePreviousGoalNextGoalId deps env p nid =
          (.error .storeUnavailable, [.findById p, .readStream p]) ∧
        env.appendOk (.updated u) = false) ∨
       (updatePreviousGoalNextGoalId deps env p nid =
          (.error .publishFailed, [.findById p, .readStream p, .append (.updated u)]) ∧
        env.appendOk (.updated u) = true ∧ env.publishOk (.updated u) = false) ∨
       (updatePreviousGoalNextGoalId deps env p nid =
          (.ok (), [.findById p, .readStream p, .append (.updated u), .publish (.updated u)]) ∧
        env.appendOk (.updated u) = true ∧ env.publishOk (.updated u) = true))) := by
  cases hd : (deps.hasUpdateEventWriter && deps.hasUpdateEventReader && deps.hasGoalReader) with
  | false =>
    left
    exact ⟨by simp [updatePreviousGoalNextGoalId, hd], rfl⟩
  | true =>
    cases hf : env.findById p with
    | none =>
      right; left
      exact ⟨by simp [updatePreviousGoalNextGoalId, hd, hf], rfl⟩
    | some s =>
      cases hr : Goal.rehydrate p (env.readStream p) with
      | error e =>
        right; right; left
        exact ⟨e, rfl, by simp [updatePreviousGoalNextGoalId, hd, hf, hr]⟩
      | ok g =>
        right; right; right
        refine ⟨g, g.update none none none none none (some { nextGoalId := some nid }),
          rfl, rfl, ?_⟩
        cases ha : env.appendOk
            (.updated (g.update none none none none none (some { nextGoalId := some nid }))) with
        | false =>
          left
          exact ⟨by simp [updatePreviousGoalNextGoalId, hd, hf, hr, ha], rfl⟩
        | true =>
          cases hp : env.publishOk
              (.updated (g.update none none none none none (some { nextGoalId := some nid }))) with
          | false =>
            right; left
            exact ⟨by simp [updatePreviousGoalNextGoalId, hd, hf, hr, ha, hp], rfl, rfl⟩
          | true =>
            right; right
            exact ⟨by simp [updatePreviousGoalNextGoalId, hd, hf, hr, ha, hp], rfl, rfl⟩

/-- C1: in every execution of AddGoalCommandHandler.execute, an event is
published on the event bus only after its append to the event store
completed successfully, and an event whose append fails is never
published; this covers both the new goal added event and the
chain-update event. -/
theorem c1_publish_only_after_append (deps : HandlerDeps) (env : Env)
    (goalId : String) (command : AddGoalCommand) :
    pubAfterApp [] (execute deps env goalId command).2 ∧
    ∀ e, TraceAction.publish e ∈ (execute deps env goalId command).2 →
      env.appendOk e = true := by
  cases ha : addedEvent goalId command with
  | error e0 => simp [execute, ha, pubAfterApp]
  | ok a =>
    cases happ : env.appendOk (.added a) with
    | false => simp [execute, ha, happ, pubAfterApp]
    | true =>
      cases hpub : env.publishOk (.added a) with
      | false =>
        refine ⟨by simp [execute, ha, happ, hpub, pubAfterApp], ?_⟩
        intro e he
        simp [execute, ha, happ, hpub] at he
      | true =>
        cases hprev : command.previousGoalId with
        | none =>
          refine ⟨by simp [execute, ha, happ, hpub, hprev, pubAfterApp], ?_⟩
          intro e he
          simp [execute, ha, happ, hpub, hprev] at he
          subst he
          exact happ
        | some p =>
          rcases chain_cases deps env p goalId with
            ⟨hu, -⟩ | ⟨hu, -⟩ | ⟨e1, -, hu⟩ |
            ⟨g, u, -, -, ⟨hu, -⟩ | ⟨hu, hau, -⟩ | ⟨hu, hau, -⟩⟩
          all_goals
            refine ⟨by simp [execute, ha, happ, hpub, hprev, hu, pubAfterApp], ?_⟩
          all_goals intro e he
          all_goals simp [execute, ha, happ, hpub, hprev, hu] at he
          · subst he; exact happ
          · subst he; exact happ
          · subst he; exact happ
          · subst he; exact happ
          · subst he; exact happ
          · rcases he with he | he
            · subst he; exact happ
            · subst he; exact hau

/-- Failures of the domain add step are validation errors naming a field. -/
lemma addedEvent_error_validation (goalId : String) (command : AddGoalCommand)
    (e : HandlerError) (h : addedEvent goalId command = .error e) :
    ∃ f, e = .validation f := by
  unfold addedEvent Goal.add at h
  repeat' split at h
  all_goals first
    | exact Except.noConfusion h
    | (cases h; exact ⟨_, rfl⟩)

/-- C2: with previousGoalId = X, a successful execution appends exactly
one update event, on the stream of X, whose payload nextGoalId is the
newly generated goal id, and publishes it after the append; when the
previous goal is not found no update event is appended, while the new
goal added event has already been appended. -/
theorem c2_chain_update_event (deps : HandlerDeps) (env : Env) (goalId : String)
    (command : AddGoalCommand) (X : String)
    (hprev : command.previousGoalId = some X) :
    (∀ gid, (execute deps env goalId command).1 = .ok gid →
      ∃ front u, u.streamId = X ∧ u.payloadNextGoalId = some goalId ∧
        updateAppends front = [] ∧
        (execute deps env goalId command).2 =
          front ++ [.append (.updated u), .publish (.updated u)]) ∧
    ((execute deps env goalId command).1 = .error (.notFound X) →
      updateAppends (execute deps env goalId command).2 = [] ∧
      ∃ a, TraceAction.append (.added a) ∈ (execute deps env goalId command).2) := by
  cases ha : addedEvent goalId command with
  | error e0 =>
    refine ⟨fun gid h => ?_, fun h => ?_⟩
    · rw [execute] at h
      simp only [ha] at h
      exact Except.noConfusion h
    · rw [execute] at h
      simp only [ha] at h
      obtain ⟨f, rfl⟩ := addedEvent_error_validation goalId command e0 ha
      simp at h
  | ok a =>
    cases happ : env.appendOk (.added a) with
    | false =>
      refine ⟨fun gid h => ?_, fun h => ?_⟩
      · simp [execute, ha, happ] at h
      · simp [execute, ha, happ] at h
    | true =>
      cases hpub : env.publishOk (.added a) with
      | false =>
        refine ⟨fun gid h => ?_, fun h => ?_⟩
        · simp [execute, ha, happ, hpub] at h
        · simp [execute, ha, happ, hpub] at h
      | true =>
        rcases chain_cases deps env X goalId with
          ⟨hu, -⟩ | ⟨hu, -⟩ | ⟨e1, he1, hu⟩ |
          ⟨g, u, hg, hu2, ⟨hu, -⟩ | ⟨hu, -, -⟩ | ⟨hu, -, -⟩⟩
        · refine ⟨fun gid h => ?_, fun h => ?_⟩
          · simp [execute, ha, happ, hpub, hprev, hu] at h
          · simp [execute, ha, happ, hpub, hprev, hu] at h
        · refine ⟨fun gid h => ?_, fun h => ?_⟩
          · simp [execute, ha, happ, hpub, hprev, hu] at h
          · refine ⟨by simp [execute, ha, happ, hpub, hprev, hu, updateAppends], a, ?_⟩
            simp [execute, ha, happ, hpub, hprev, hu]
        · refine ⟨fun gid h => ?_, fun h => ?_⟩
          · simp [execute, ha, happ, hpub, hprev, hu] at h
          · refine ⟨by simp [execute, ha, happ, hpub, hprev, hu, updateAppends], a, ?_⟩
            simp [execute, ha, happ, hpub, hprev, hu]
        · refine ⟨fun gid h => ?_, fun h => ?_⟩
          · simp [execute, ha, happ, hpub, hprev, hu] at h
          · simp [execute, ha, happ, hpub, hprev, hu] at h
        · refine ⟨fun gid h => ?_, fun h => ?_⟩
          · simp [execute, ha, happ, hpub, hprev, hu] at h
          · simp [execute, ha, happ, hpub, hprev, hu] at h
        · refine ⟨fun gid h => ?_, fun h => ?_⟩
          · refine ⟨[.append (.added a), .publish (.added a), .findById X, .readStream X],
              u, ?_, ?_, ?_, ?_⟩
            · rw [hu2]
              simp only [Goal.update]
              exact Goal.rehydrate_id X (env.readStream X) g hg
            · rw [hu2]
              simp [Goal.update, GoalUpdatedEvent.payloadNextGoalId, Option.bind]
            · simp [updateAppends]
            · simp [execute, ha, happ, hpub, hprev, hu]
          · simp [execute, ha, happ, hpub, hprev, hu] at h

/-- C3: when the finder returns null for the requested previous goal (with
the chaining collaborators wired and the earlier steps of the command
succeeding), execute fails with a NotFound error carrying that id, and it
does so before reading the previous goal stream or appending any update
event. -/
theorem c3_not_found_before_stream_read (deps : HandlerDeps) (env : Env)
    (goalId : String) (command : AddGoalCommand) (X : String) (a : GoalAddedEvent)
    (hprev : command.previousGoalId = some X)
    (hdeps : (deps.hasUpdateEventWriter && deps.hasUpdateEventReader &&
      deps.hasGoalReader) = true)
    (hfind : env.findById X = none)
    (ha : addedEvent goalId command = .ok a)
    (happ : env.appendOk (.added a) = true)
    (hpub : env.publishOk (.added a) = true) :
    (execute deps env goalId command).1 = .error (.notFound X) ∧
    TraceAction.readStream X ∉ (execute deps env goalId command).2 ∧
    updateAppends (execute deps env goalId command).2 = [] := by
  have hu : updatePreviousGoalNextGoalId deps env X goalId =
      (.error (.notFound X), [.findById X]) := by
    simp [updatePreviousGoalNextGoalId, hdeps, hfind]
  refine ⟨?_, ?_, ?_⟩
  · simp [execute, ha, happ, hpub, hprev, hu]
  · simp [execute, ha, happ, hpub, hprev, hu]
  · simp [execute, ha, happ, hpub, hprev, hu, updateAppends]

/-- C4: when previousGoalId is set but any of the three chaining
collaborators is absent, no chain-update event is ever appended or
published, and (when the earlier steps of the command succeed) execute
fails with the configuration error instead of silently skipping the
link. -/
theorem c4_missing_collaborators_fail_fast (deps : HandlerDeps) (env : Env)
    (goalId : String) (command : AddGoalCommand) (X : String)
    (hprev : command.previousGoalId = some X)
    (hdeps : (deps.hasUpdateEventWriter && deps.hasUpdateEventReader &&
      deps.hasGoalReader) = false) :
    updateAppends (execute deps env goalId command).2 = [] ∧
    updatePublishes (execute deps env goalId command).2 = [] ∧
    ∀ a, addedEvent goalId command = .ok a → env.appendOk (.added a) = true →
      env.publishOk (.added a) = true →
      (execute deps env goalId command).1 = .error .configuration := by
  have hu : updatePreviousGoalNextGoalId deps env X goalId =
      (.error .configuration, []) := by
    simp [updatePreviousGoalNextGoalId, hdeps]
  refine ⟨?_, ?_, ?_⟩
  · cases ha : addedEvent goalId command with
    | error e0 => simp [execute, ha, updateAppends]
    | ok a =>
      cases happ : env.appendOk (.added a) with
      | false => simp [execute, ha, happ, updateAppends]
      | true =>
        cases hpub : env.publishOk (.added a) with
        | false => simp [execute, ha, happ, hpub, updateAppends]
        | true => simp [execute, ha, happ, hpub, hprev, hu, updateAppends]
  · cases ha : addedEvent goalId command with
    | error e0 => simp [execute, ha, updatePublishes]
    | ok a =>
      cases happ : env.appendOk (.added a) with
      | false => simp [execute, ha, happ, updatePublishes]
      | true =>
        cases hpub : env.publishOk (.added a) with
        | false => simp [execute, ha, happ, hpub, updatePublishes]
        | true => simp [execute, ha, happ, hpub, hprev, hu, updatePublishes]
  · intro a ha happ hpub
    simp [execute, ha, happ, hpub, hprev, hu]

/-- C5: with previousGoalId set and the earlier steps succeeding, the new
goal added event is appended and published before any chaining action,
and whatever the chaining step then does, the new goal stream holds
exactly its initial added event (no rollback is attempted). -/
theorem c5_new_goal_first_no_rollback (deps : HandlerDeps) (env : Env)
    (goalId : String) (command : AddGoalCommand) (X : String) (a : GoalAddedEvent)
    (hprev : command.previousGoalId = some X)
    (hneq : X ≠ goalId)
    (ha : addedEvent goalId command = .ok a)
    (happ : env.appendOk (.added a) = true)
    (hpub : env.publishOk (.added a) = true) :
    ∃ chainTrace,
      (execute deps env goalId command).2 =
        .append (.added a) :: .publish (.added a) :: chainTrace ∧
      appendsTo goalId (execute deps env goalId command).2 = [.added a] := by
  have hsid : a.streamId = goalId := addedEvent_streamId goalId command a ha
  rcases chain_cases deps env X goalId with
    ⟨hu, -⟩ | ⟨hu, -⟩ | ⟨e1, he1, hu⟩ |
    ⟨g, u, hg, hu2, ⟨hu, -⟩ | ⟨hu, -, -⟩ | ⟨hu, -, -⟩⟩
  · exact ⟨[], by simp [execute, ha, happ, hpub, hprev, hu],
      by simp [execute, ha, happ, hpub, hprev, hu, appendsTo, DomainEvent.streamId, hsid]⟩
  · exact ⟨[.findById X], by simp [execute, ha, happ, hpub, hprev, hu],
      by simp [execute, ha, happ, hpub, hprev, hu, appendsTo, DomainEvent.streamId, hsid]⟩
  · exact ⟨[.findById X, .readStream X], by simp [execute, ha, happ, hpub, hprev, hu],
      by simp [execute, ha, happ, hpub, hprev, hu, appendsTo, DomainEvent.streamId, hsid]⟩
  · exact ⟨[.findById X, .readStream X], by simp [execute, ha, happ, hpub, hprev, hu],
      by simp [execute, ha, happ, hpub, hprev, hu, appendsTo, DomainEvent.streamId, hsid]⟩
  · have husid : u.streamId = X := by
      rw [hu2]
      simp only [Goal.update]
      exact Goal.rehydrate_id X (env.readStream X) g hg
    refine ⟨[.findById X, .readStream X, .append (.updated u)],
      by simp [execute, ha, happ, hpub, hprev, hu], ?_⟩
    simp [execute, ha, happ, hpub, hprev, hu, appendsTo, DomainEvent.streamId, hsid, husid,
      hneq]
  · have husid : u.streamId = X := by
      rw [hu2]
      simp only [Goal.update]
      exact Goal.rehydrate_id X (env.readStream X) g hg
    refine ⟨[.findById X, .readStream X, .append (.updated u), .publish (.updated u)],
      by simp [execute, ha, happ, hpub, hprev, hu], ?_⟩
    simp [execute, ha, happ, hpub, hprev, hu, appendsTo, DomainEvent.streamId, hsid, husid,
      hneq]

/-- C6: execute passes an embedded-context payload to the aggregate if and
only if at least one of the eight fixed optional fields is present on the
command; with none present the argument is omitted entirely. -/
theorem c6_embedded_context_iff (command : AddGoalCommand) :
    (buildEmbeddedContext command).isSome = true ↔
      (command.relevantInvariants.isSome = true ∨
       command.relevantGuidelines.isSome = true ∨
       command.relevantDependencies.isSome = true ∨
       command.relevantComponents.isSome = true ∨
       command.architecture.isSome = true ∨
       command.filesToBeCreated.isSome = true ∨
       command.filesToBeChanged.isSome = true ∨
       command.nextGoalId.isSome = true) := by
  unfold buildEmbeddedContext
  split
  · next hcond =>
    simp only [Option.isSome_some, true_iff]
    simpa [Bool.or_eq_true, or_assoc] using hcond
  · next hcond =>
    simp only [Option.isSome_none, Bool.false_eq_true, false_iff]
    intro hcontra
    exact hcond (by simpa [Bool.or_eq_true, or_assoc] using hcontra)

/-- Witness for C1 at a concrete execution: the added event published in
the trace was appended with success. -/
theorem c1_witness : envAllOk.appendOk (.added addedEv0) = true :=
  (c1_publish_only_after_append depsAll envAllOk "goal_new" cmd0).2
    (.added addedEv0) (by decide)

/-- Witness for C2 at a concrete successful chained execution. -/
theorem c2_witness :
    ∃ front u, u.streamId = "goal_prev" ∧ u.payloadNextGoalId = some "goal_new" ∧
      updateAppends front = [] ∧
      (execute depsAll envAllOk "goal_new" cmdChain).2 =
        front ++ [.append (.updated u), .publish (.updated u)] :=
  (c2_chain_update_event depsAll envAllOk "goal_new" cmdChain "goal_prev" rfl).1
    "goal_new" (by decide)

/-- Witness for C3 at a concrete execution whose finder returns null. -/
theorem c3_witness :
    (execute depsAll envNoFind "goal_new" cmdChain).1 = .error (.notFound "goal_prev") ∧
    TraceAction.readStream "goal_prev" ∉ (execute depsAll envNoFind "goal_new" cmdChain).2 ∧
    updateAppends (execute depsAll envNoFind "goal_new" cmdChain).2 = [] :=
  c3_not_found_before_stream_read depsAll envNoFind "goal_new" cmdChain "goal_prev"
    addedEv0 rfl rfl rfl (by decide) rfl rfl

/-- Witness for C4 at a concrete execution with a missing collaborator. -/
theorem c4_witness :
    updateAppends (execute depsNone envAllOk "goal_new" cmdChain).2 = [] ∧
    updatePublishes (execute depsNone envAllOk "goal_new" cmdChain).2 = [] ∧
    ∀ a, addedEvent "goal_new" cmdChain = .ok a →
      envAllOk.appendOk (.added a) = true → envAllOk.publishOk (.added a) = true →
      (execute depsNone envAllOk "goal_new" cmdChain).1 = .error .configuration :=
  c4_missing_collaborators_fail_fast depsNone envAllOk "goal_new" cmdChain "goal_prev"
    rfl rfl

/-- Witness for C5 at a concrete successful chained execution. -/
theorem c5_witness :
    ∃ chainTrace,
      (execute depsAll envAllOk "goal_new" cmdChain).2 =
        .append (.added addedEv0) :: .publish (.added addedEv0) :: chainTrace ∧
      appendsTo "goal_new" (execute depsAll envAllOk "goal_new" cmdChain).2 =
        [.added addedEv0] :=
  c5_new_goal_first_no_rollback depsAll envAllOk "goal_new" cmdChain "goal_prev"
    addedEv0 rfl (by decide) (by decide) rfl rfl

/-- C10: isUnprimed returns true exactly when no piece of solution context
exists: a null architecture together with empty components, decisions,
invariants and guidelines lists. -/
theorem c10_isUnprimed_iff {Arch Comp Dec Inv Guide : Type}
    (context : SolutionContextView Arch Comp Dec Inv Guide) :
    isUnprimed context = true ↔
      (context.architecture = none ∧ context.components = [] ∧
       context.decisions = [] ∧ context.invariants = [] ∧
       context.guidelines = []) := by
  simp only [isUnprimed, Option.isSome_iff_ne_none, List.length_pos, Bool.or_eq_true,
    not_or, List.length_eq_zero, Bool.not_eq_true', Bool.or_eq_false_iff,
    decide_eq_false_iff_not, ne_eq, not_not, and_assoc]
  cases context.architecture <;> simp

/-- The ensure operation for GEMINI.md always returns normally. -/
lemma ensureGeminiMd_ok (o : MdOracle) (reference : String) (file : Option String) :
    (ensureGeminiMd o reference file).1 = .ok () := by
  rcases h : ensureGeminiMdTry o reference file with ⟨r, f⟩
  cases r <;> simp [ensureGeminiMd, h]

/-- The ensure operation for the Gemini settings hook always returns
normally. -/
lemma ensureGeminiSettings_ok (o : MergeFsOracle) (w : SettingsWorld) :
    (ensureGeminiSettings o w).1 = .ok () := by
  rcases h : mergeSettingsModel o w jumboHook with ⟨r, w1⟩
  cases r <;> simp [ensureGeminiSettings, h]

/-- The ensure operation for the Copilot instructions always returns
normally. -/
lemma ensureCopilotInstructions_ok (o : CopilotOracle) (instructions marker : String)
    (file : Option String) : (ensureCopilotInstructions o instructions marker file).1 = .ok () := by
  rcases h : ensureCopilotInstructionsTry o instructions marker file with ⟨r, f⟩
  cases r <;> simp [ensureCopilotInstructions, h]

/-- The ensure operation for CURSOR.md always returns normally. -/
lemma ensureCursorMd_ok (o : MdOracle) (reference : String) (file : Option String) :
    (ensureCursorMd o reference file).1 = .ok () := by
  rcases h : ensureCursorMdTry o reference file with ⟨r, f⟩
  cases r <;> simp [ensureCursorMd, h]

/-- The ensure operation for the Cursor rule always returns normally. -/
lemma ensureCursorRule_ok (o : CursorRuleOracle) (jumboSection marker : String)
    (file : Option String) : (ensureCursorRule o jumboSection marker file).1 = .ok () := by
  rcases h : ensureCursorRuleTry o jumboSection marker file with ⟨r, f⟩
  cases r <;> simp [ensureCursorRule, h]

/-- C7: the configure operations of GeminiConfigurer, CopilotConfigurer and
CursorConfigurer never propagate an error: for every project state and
every pattern of file-operation failures they return normally, logging
warnings instead of throwing. -/
theorem c7_configurers_never_throw (o1 : MdOracle) (o2 : MergeFsOracle)
    (o3 : CopilotOracle) (o4 : MdOracle) (o5 : CursorRuleOracle)
    (reference instructions marker jumboSection ruleMarker : String)
    (w1 : GeminiWorld) (copilotFile : Option String) (w2 : CursorWorld) :
    (GeminiConfigurer.configure o1 o2 reference w1).1 = .ok () ∧
    (CopilotConfigurer.configure o3 instructions marker copilotFile).1 = .ok () ∧
    (CursorConfigurer.configure o4 o5 reference jumboSection ruleMarker w2).1 = .ok () := by
  refine ⟨?_, ?_, ?_⟩
  · have h1 := ensureGeminiMd_ok o1 reference w1.geminiMd
    rcases hm : ensureGeminiMd o1 reference w1.geminiMd with ⟨r, f, warns⟩
    rw [hm] at h1
    simp only at h1
    subst h1
    have h2 := ensureGeminiSettings_ok o2 w1.settingsWorld
    rcases hs : ensureGeminiSettings o2 w1.settingsWorld with ⟨r2, s1, warns2⟩
    rw [hs] at h2
    simp only at h2
    subst h2
    simp [GeminiConfigurer.configure, hm, hs]
  · exact ensureCopilotInstructions_ok o3 instructions marker copilotFile
  · have h1 := ensureCursorMd_ok o4 reference w2.cursorMd
    rcases hm : ensureCursorMd o4 reference w2.cursorMd with ⟨r, f, warns⟩
    rw [hm] at h1
    simp only at h1
    subst h1
    have h2 := ensureCursorRule_ok o5 jumboSection ruleMarker w2.cursorRule
    rcases hs : ensureCursorRule o5 jumboSection ruleMarker w2.cursorRule with ⟨r2, r1, warns2⟩
    rw [hs] at h2
    simp only at h2
    subst h2
    simp [CursorConfigurer.configure, hm, hs]

/-- Keys after a map-style update: unchanged when the command is present,
extended by it at the end otherwise. -/
lemma hookKeys_setHook (l : List GeminiHook) (h : GeminiHook) :
    hookKeys (setHook l h) =
      if h.command ∈ hookKeys l then hookKeys l else hookKeys l ++ [h.command] := by
  induction l with
  | nil =>
    rw [if_neg (by simp [hookKeys])]
    simp [setHook, hookKeys]
  | cons x xs ih =>
    by_cases hc : x.command = h.command
    · have hmem : h.command ∈ hookKeys (x :: xs) := by
        simp only [hookKeys, List.map_cons, List.mem_cons]
        exact Or.inl hc.symm
      rw [show setHook (x :: xs) h = h :: xs by simp [setHook, hc], if_pos hmem]
      simp only [hookKeys, List.map_cons]
      rw [hc]
    · have hstep : setHook (x :: xs) h = x :: setHook xs h := by simp [setHook, hc]
      by_cases hm : h.command ∈ hookKeys xs
      · have hmem : h.command ∈ hookKeys (x :: xs) := by
          simp only [hookKeys, List.map_cons, List.mem_cons]
          exact Or.inr hm
        rw [hstep, if_pos hmem]
        show hookKeys (x :: setHook xs h) = hookKeys (x :: xs)
        simp only [hookKeys, List.map_cons]
        rw [if_pos hm] at ih
        simpa [hookKeys] using ih
      · have hmem : h.command ∉ hookKeys (x :: xs) := by
          simp only [hookKeys, List.map_cons, List.mem_cons]
          push_neg
          exact ⟨fun hh => hc hh.symm, by simpa [hookKeys] using hm⟩
        rw [hstep, if_neg hmem]
        show hookKeys (x :: setHook xs h) = hookKeys (x :: xs) ++ [h.command]
        simp only [hookKeys, List.map_cons, List.cons_append]
        rw [if_neg hm] at ih
        simpa [hookKeys] using ih

/-- Lookup after a map-style update. -/
lemma hookVal_setHook (l : List GeminiHook) (h : GeminiHook) (c : String) :
    hookVal (setHook l h) c = if c = h.command then some h else hookVal l c := by
  induction l with
  | nil =>
    by_cases hc : c = h.command
    · simp [setHook, hookVal, hc]
    · rw [if_neg hc]
      have hc2 : ¬h.command = c := fun hh => hc hh.symm
      simp [setHook, hookVal, hc2]
  | cons x xs ih =>
    by_cases hcx : x.command = h.command
    · have hstep : setHook (x :: xs) h = h :: xs := by simp [setHook, hcx]
      by_cases hc : c = h.command
      · rw [hstep, if_pos hc]
        simp [hookVal, hc.symm]
      · rw [hstep, if_neg hc]
        have hc2 : ¬h.command = c := fun hh => hc hh.symm
        have hx2 : ¬x.command = c := fun hh => hc ((hh.symm.trans hcx).symm).symm
        simp [hookVal, hc2, hx2]
    · have hstep : setHook (x :: xs) h = x :: setHook xs h := by simp [setHook, hcx]
      by_cases hc : c = h.command
      · have hx2 : ¬x.command = c := fun hh => hcx (hh.trans hc)
        rw [hstep, if_pos hc]
        simp only [hookVal, hx2, if_false, if_neg hx2]
        rw [ih, if_pos hc]
      · by_cases hx : x.command = c
        · rw [hstep, if_neg hc]
          simp [hookVal, hx]
        · rw [hstep, if_neg hc]
          simp only [hookVal, if_neg hx]
          rw [ih, if_neg hc]

/-- A map-style update preserves key nodupness. -/
lemma hookKeys_nodup_setHook (l : List GeminiHook) (h : GeminiHook)
    (hn : (hookKeys l).Nodup) : (hookKeys (setHook l h)).Nodup := by
  rw [hookKeys_setHook]
  by_cases hm : h.command ∈ hookKeys l
  · simpa [hm] using hn
  · rw [if_neg hm]
    simp [List.nodup_append, hn, hm]

/-- A missing key has no value. -/
lemma hookVal_none_of_not_mem (l : List GeminiHook) (c : String)
    (h : c ∉ hookKeys l) : hookVal l c = none := by
  induction l with
  | nil => rfl
  | cons x xs ih =>
    simp only [hookKeys, List.map_cons, List.mem_cons, not_or] at h
    have hx : ¬x.command = c := fun hh => h.1 hh.symm
    simp only [hookVal, if_neg hx]
    exact ih (by simpa [hookKeys] using h.2)

/-- A present value means a present key. -/
lemma mem_hookKeys_of_hookVal_some (l : List GeminiHook) (c : String) (x : GeminiHook)
    (h : hookVal l c = some x) : c ∈ hookKeys l := by
  induction l with
  | nil => simp [hookVal] at h
  | cons y ys ih =>
    by_cases hy : y.command = c
    · simp [hookKeys, hy.symm]
    · simp only [hookVal, if_neg hy] at h
      simp only [hookKeys, List.map_cons, List.mem_cons]
      exact Or.inr (by simpa [hookKeys] using ih h)

/-- Hook lists with nodup keys, the same key order and the same values are
equal. -/
lemma hookExt : ∀ (l1 l2 : List GeminiHook), (hookKeys l1).Nodup →
    hookKeys l1 = hookKeys l2 → (∀ c, hookVal l1 c = hookVal l2 c) → l1 = l2 := by
  intro l1
  induction l1 with
  | nil =>
    intro l2 _ hk _
    cases l2 with
    | nil => rfl
    | cons y ys => simp [hookKeys] at hk
  | cons x xs ih =>
    intro l2 hn hk hv
    cases l2 with
    | nil => simp [hookKeys] at hk
    | cons y ys =>
      simp only [hookKeys, List.map_cons, List.cons.injEq] at hk
      simp only [hookKeys, List.map_cons, List.nodup_cons] at hn
      have hkeq : hookKeys xs = hookKeys ys := by simpa [hookKeys] using hk.2
      have hxy : x = y := by
        have h1 := hv x.command
        rw [show hookVal (x :: xs) x.command = some x by simp [hookVal]] at h1
        rw [show hookVal (y :: ys) x.command = some y by simp [hookVal, hk.1]] at h1
        exact Option.some.inj h1
      have htail : xs = ys := by
        refine ih ys (by simpa [hookKeys] using hn.2) hkeq ?_
        intro c
        by_cases hc : c = x.command
        · rw [hc]
          rw [hookVal_none_of_not_mem xs x.command (by simpa [hookKeys] using hn.1),
            hookVal_none_of_not_mem ys x.command
              (by rw [← hkeq]; simpa [hookKeys] using hn.1)]
        · have h1 := hv c
          have hx2 : ¬x.command = c := fun hh => hc hh.symm
          have hy2 : ¬y.command = c := fun hh => hc (hk.1.trans hh).symm
          simp only [hookVal, if_neg hx2, if_neg hy2] at h1
          exact h1
      rw [hxy, htail]

/-- Lookup after folding a batch of updates: the last matching hook of the
batch wins, otherwise the original value remains. -/
lemma hookVal_foldl (n : List GeminiHook) : ∀ (l : List GeminiHook) (c : String),
    hookVal (n.foldl setHook l) c =
      match hookLast n c with
      | some x => some x
      | none => hookVal l c := by
  induction n with
  | nil => intro l c; rfl
  | cons h t ih =>
    intro l c
    rw [List.foldl_cons, ih (setHook l h) c, hookVal_setHook]
    cases hl : hookLast t c with
    | some x => simp [hookLast, hl]
    | none =>
      by_cases hc : c = h.command
      · subst hc
        simp [hookLast, hl]
      · have hc2 : ¬h.command = c := fun hh => hc hh.symm
        simp [hookLast, hl, hc, hc2]

/-- A key present in the batch has a last hook. -/
lemma hookLast_isSome_of_mem (n : List GeminiHook) (c : String)
    (h : c ∈ hookKeys n) : ∃ x, hookLast n c = some x := by
  induction n with
  | nil => simp [hookKeys] at h
  | cons y t ih =>
    simp only [hookKeys, List.map_cons, List.mem_cons] at h
    cases hl : hookLast t c with
    | some x => exact ⟨x, by simp [hookLast, hl]⟩
    | none =>
      rcases h with h | h
      · exact ⟨y, by simp [hookLast, hl, h.symm]⟩
      · obtain ⟨x, hx⟩ := ih (by simpa [hookKeys] using h)
        rw [hx] at hl
        exact Option.noConfusion hl

/-- Keys of the batch survive the fold. -/
lemma mem_hookKeys_foldl (n l : List GeminiHook) (c : String)
    (h : c ∈ hookKeys n) : c ∈ hookKeys (n.foldl setHook l) := by
  obtain ⟨x, hx⟩ := hookLast_isSome_of_mem n c h
  refine mem_hookKeys_of_hookVal_some _ c x ?_
  rw [hookVal_foldl, hx]

/-- Folding a batch whose keys are already present leaves the keys
unchanged. -/
lemma hookKeys_foldl_of_subset (n : List GeminiHook) : ∀ (l : List GeminiHook),
    (∀ c ∈ hookKeys n, c ∈ hookKeys l) →
    hookKeys (n.foldl setHook l) = hookKeys l := by
  induction n with
  | nil => intro l _; rfl
  | cons h t ih =>
    intro l hsub
    rw [List.foldl_cons]
    have hmem : h.command ∈ hookKeys l := hsub h.command (by simp [hookKeys])
    have hkeys : hookKeys (setHook l h) = hookKeys l := by
      rw [hookKeys_setHook, if_pos hmem]
    rw [ih (setHook l h) ?_, hkeys]
    intro c hc
    rw [hkeys]
    refine hsub c ?_
    simp only [hookKeys, List.map_cons, List.mem_cons]
    exact Or.inr (by simpa [hookKeys] using hc)

/-- Folding preserves key nodupness. -/
lemma hookKeys_nodup_foldl (n : List GeminiHook) : ∀ (l : List GeminiHook),
    (hookKeys l).Nodup → (hookKeys (n.foldl setHook l)).Nodup := by
  induction n with
  | nil => intro l hn; exact hn
  | cons h t ih =>
    intro l hn
    rw [List.foldl_cons]
    exact ih (setHook l h) (hookKeys_nodup_setHook l h hn)

/-- Updating with a fresh command appends. -/
lemma setHook_append_of_not_mem (acc : List GeminiHook) (h : GeminiHook)
    (hm : h.command ∉ hookKeys acc) : setHook acc h = acc ++ [h] := by
  induction acc with
  | nil => rfl
  | cons x xs ih =>
    simp only [hookKeys, List.map_cons, List.mem_cons, not_or] at hm
    have hx : ¬x.command = h.command := fun hh => hm.1 hh.symm
    simp only [setHook, if_neg hx, List.cons_append, List.cons.injEq, true_and]
    exact ih (by simpa [hookKeys] using hm.2)

/-- Replaying a nodup-keyed list onto a disjoint accumulator appends it. -/
lemma foldl_setHook_eq_append : ∀ (l acc : List GeminiHook),
    (hookKeys (acc ++ l)).Nodup → l.foldl setHook acc = acc ++ l := by
  intro l
  induction l with
  | nil => intro acc _; simp
  | cons h t ih =>
    intro acc hn
    have hmem : h.command ∉ hookKeys acc := by
      intro hmem
      rw [show hookKeys (acc ++ h :: t) = hookKeys acc ++ h.command :: hookKeys t by
        simp [hookKeys]] at hn
      rcases List.nodup_append.mp hn with ⟨-, -, hdisj⟩
      exact hdisj hmem (by simp)
    rw [List.foldl_cons, setHook_append_of_not_mem acc h hmem, ih (acc ++ [h]) ?_]
    · simp
    · have : (acc ++ [h]) ++ t = acc ++ h :: t := by simp
      rw [this]
      exact hn

/-- A nodup-keyed list replayed from the empty map is itself. -/
lemma foldl_setHook_nil (l : List GeminiHook) (hn : (hookKeys l).Nodup) :
    l.foldl setHook [] = l := by
  have := foldl_setHook_eq_append l [] (by simpa using hn)
  simpa using this

/-- Replaying the same batch twice is the same as replaying it once. -/
lemma foldl_setHook_absorb (n d : List GeminiHook) (hd : (hookKeys d).Nodup) :
    n.foldl setHook (n.foldl setHook d) = n.foldl setHook d := by
  have hM : (hookKeys (n.foldl setHook d)).Nodup := hookKeys_nodup_foldl n d hd
  refine hookExt _ _ (hookKeys_nodup_foldl n _ hM) ?_ ?_
  · exact hookKeys_foldl_of_subset n _ (fun c hc => mem_hookKeys_foldl n d c hc)
  · intro c
    rw [hookVal_foldl]
    cases hl : hookLast n c with
    | some x =>
      rw [hookVal_foldl, hl]
    | none => rfl

/-- Merged hook lists always carry nodup keys. -/
lemma hookKeys_nodup_mergeHookLists (x y : List GeminiHook) :
    (hookKeys (mergeHookLists x y)).Nodup := by
  unfold mergeHookLists
  exact hookKeys_nodup_foldl y _ (hookKeys_nodup_foldl x [] (by simp [hookKeys]))

/-- Matcher records with equal fields are equal. -/
lemma matcherRecordEq (a b : GeminiSessionStartMatcher)
    (h1 : a.matcher = b.matcher) (h2 : a.hooks = b.hooks) : a = b := by
  cases a
  cases b
  simp_all

/-- Folding matcher updates never changes the matcher type. -/
lemma applyAllMatcher_matcher (as : List GeminiSessionStartMatcher) :
    ∀ m, (applyAllMatcher m as).matcher = m.matcher := by
  induction as with
  | nil => intro m; rfl
  | cons nm t ih =>
    intro m
    unfold applyAllMatcher
    rw [List.foldl_cons]
    exact ih { m with hooks := mergeHookLists m.hooks nm.hooks }

/-- Unfolding one matcher update of a fold. -/
lemma applyAllMatcher_cons (m nm : GeminiSessionStartMatcher)
    (as : List GeminiSessionStartMatcher) :
    applyAllMatcher m (nm :: as) =
      applyAllMatcher { m with hooks := mergeHookLists m.hooks nm.hooks } as := rfl

/-- Hooks after folding a nonempty batch of matcher updates: the batch
hooks replayed over the deduplicated original hooks. -/
lemma applyAllMatcher_hooks : ∀ (as : List GeminiSessionStartMatcher)
    (m : GeminiSessionStartMatcher), as ≠ [] →
    (applyAllMatcher m as).hooks =
      (flatHooks as).foldl setHook (m.hooks.foldl setHook []) := by
  intro as
  induction as with
  | nil => intro m h; exact absurd rfl h
  | cons nm t ih =>
    intro m _
    rw [applyAllMatcher_cons]
    cases t with
    | nil =>
      show (mergeHookLists m.hooks nm.hooks) = _
      unfold mergeHookLists
      simp [flatHooks]
    | cons x y =>
      rw [ih _ (by simp)]
      have hup : ({ m with hooks := mergeHookLists m.hooks nm.hooks} :
          GeminiSessionStartMatcher).hooks = mergeHookLists m.hooks nm.hooks := rfl
      rw [hup, foldl_setHook_nil _ (hookKeys_nodup_mergeHookLists m.hooks nm.hooks)]
      show _ = (flatHooks (nm :: x :: y)).foldl setHook (m.hooks.foldl setHook [])
      rw [show flatHooks (nm :: x :: y) = nm.hooks ++ flatHooks (x :: y) from rfl,
        List.foldl_append]
      rfl

/-- Replaying the same matcher batch over its own fold result changes
nothing. -/
lemma applyAllMatcher_absorb_merged (as : List GeminiSessionStartMatcher)
    (m : GeminiSessionStartMatcher) :
    applyAllMatcher (applyAllMatcher m as) as = applyAllMatcher m as := by
  cases as with
  | nil => rfl
  | cons nm t =>
    refine matcherRecordEq _ _ (applyAllMatcher_matcher _ _) ?_
    rw [applyAllMatcher_hooks (nm :: t) _ (by simp),
      applyAllMatcher_hooks (nm :: t) m (by simp)]
    have hd : (hookKeys (m.hooks.foldl setHook [])).Nodup :=
      hookKeys_nodup_foldl m.hooks [] (by simp [hookKeys])
    have hM : (hookKeys ((flatHooks (nm :: t)).foldl setHook
        (m.hooks.foldl setHook []))).Nodup := hookKeys_nodup_foldl _ _ hd
    rw [foldl_setHook_nil _ hM]
    exact foldl_setHook_absorb _ _ hd

/-- Replaying a pushed matcher and its trailing batch over their own fold
result changes nothing, provided the pushed matcher has nodup hook
commands. -/
lemma applyAllMatcher_absorb_pushed (nm : GeminiSessionStartMatcher)
    (as : List GeminiSessionStartMatcher) (hnm : (hookKeys nm.hooks).Nodup) :
    applyAllMatcher (applyAllMatcher nm as) (nm :: as) = applyAllMatcher nm as := by
  cases as with
  | nil =>
    show applyAllMatcher nm [nm] = nm
    refine matcherRecordEq _ _ rfl ?_
    show mergeHookLists nm.hooks nm.hooks = nm.hooks
    unfold mergeHookLists
    rw [foldl_setHook_absorb nm.hooks [] (by simp [hookKeys]),
      foldl_setHook_nil nm.hooks hnm]
  | cons x y =>
    refine matcherRecordEq _ _ ?_ ?_
    · rw [applyAllMatcher_matcher, applyAllMatcher_matcher]
    · rw [applyAllMatcher_cons]
      have hHhooks : (applyAllMatcher nm (x :: y)).hooks =
          (nm.hooks ++ flatHooks (x :: y)).foldl setHook [] := by
        rw [applyAllMatcher_hooks (x :: y) nm (by simp), List.foldl_append]
      have hHnodup : (hookKeys (applyAllMatcher nm (x :: y)).hooks).Nodup := by
        rw [hHhooks]
        exact hookKeys_nodup_foldl _ [] (by simp [hookKeys])
      rw [applyAllMatcher_hooks (x :: y) _ (by simp)]
      have hup : ({ applyAllMatcher nm (x :: y) with
          hooks := mergeHookLists (applyAllMatcher nm (x :: y)).hooks nm.hooks } :
          GeminiSessionStartMatcher).hooks =
          mergeHookLists (applyAllMatcher nm (x :: y)).hooks nm.hooks := rfl
      rw [hup, foldl_setHook_nil _ (hookKeys_nodup_mergeHookLists _ _)]
      have hmerge : mergeHookLists (applyAllMatcher nm (x :: y)).hooks nm.hooks
          = nm.hooks.foldl setHook (applyAllMatcher nm (x :: y)).hooks := by
        unfold mergeHookLists
        rw [foldl_setHook_nil _ hHnodup]
      rw [hmerge, hHhooks]
      have habsorb := foldl_setHook_absorb (nm.hooks ++ flatHooks (x :: y)) []
        (by simp [hookKeys])
      simp only [List.foldl_append] at habsorb ⊢
      exact habsorb

/-- One batch of additions over a cons: the head absorbs the additions
with its matcher type, the tail gets the rest. -/
lemma mergeSessionStartHooks_decomp : ∀ (a : List GeminiSessionStartMatcher)
    (m : GeminiSessionStartMatcher) (l : List GeminiSessionStartMatcher),
    mergeSessionStartHooks (m :: l) a =
      applyAllMatcher m (a.filter fun z => z.matcher == m.matcher) ::
      mergeSessionStartHooks l (a.filter fun z => !(z.matcher == m.matcher)) := by
  intro a
  induction a with
  | nil => intro m l; rfl
  | cons nm a' ih =>
    intro m l
    by_cases hc : m.matcher = nm.matcher
    · have hnm : (nm.matcher == m.matcher) = true := by simp [hc.symm]
      have hone : mergeOneMatcher (m :: l) nm =
          { m with hooks := mergeHookLists m.hooks nm.hooks } :: l := by
        simp [mergeOneMatcher, hc]
      have hstep : mergeSessionStartHooks (m :: l) (nm :: a') =
          mergeSessionStartHooks
            ({ m with hooks := mergeHookLists m.hooks nm.hooks } :: l) a' := by
        unfold mergeSessionStartHooks
        rw [List.foldl_cons, hone]
      rw [hstep, ih]
      rw [show (nm :: a').filter (fun z => z.matcher == m.matcher) =
          nm :: a'.filter (fun z => z.matcher == m.matcher) by simp [hnm]]
      rw [show (nm :: a').filter (fun z => !(z.matcher == m.matcher)) =
          a'.filter (fun z => !(z.matcher == m.matcher)) by simp [hnm]]
      rfl
    · have hnm : (nm.matcher == m.matcher) = false := by
        simp only [beq_eq_false_iff_ne, ne_eq]
        exact fun hh => hc hh.symm
      have hone : mergeOneMatcher (m :: l) nm = m :: mergeOneMatcher l nm := by
        simp [mergeOneMatcher, hc]
      have hstep : mergeSessionStartHooks (m :: l) (nm :: a') =
          mergeSessionStartHooks (m :: mergeOneMatcher l nm) a' := by
        unfold mergeSessionStartHooks
        rw [List.foldl_cons, hone]
      rw [hstep, ih]
      rw [show (nm :: a').filter (fun z => z.matcher == m.matcher) =
          a'.filter (fun z => z.matcher == m.matcher) by simp [hnm]]
      rw [show (nm :: a').filter (fun z => !(z.matcher == m.matcher)) =
          nm :: a'.filter (fun z => !(z.matcher == m.matcher)) by simp [hnm]]
      rfl

/-- Replaying a batch over its own fold from the empty list changes
nothing, provided each added matcher has nodup hook commands. -/
lemma mergeSessionStartHooks_nil_absorb : ∀ (k : ℕ) (a : List GeminiSessionStartMatcher),
    a.length ≤ k → (∀ nm ∈ a, (hookKeys nm.hooks).Nodup) →
    mergeSessionStartHooks (mergeSessionStartHooks [] a) a =
      mergeSessionStartHooks [] a := by
  intro k
  induction k with
  | zero =>
    intro a ha _
    have : a = [] := List.length_eq_zero.mp (Nat.le_zero.mp ha)
    subst this
    rfl
  | succ k ih =>
    intro a ha hcond
    cases a with
    | nil => rfl
    | cons nm a' =>
      have hlen : a'.length ≤ k := by
        simpa [Nat.succ_le_succ_iff] using ha
      have hstep : mergeSessionStartHooks [] (nm :: a') =
          mergeSessionStartHooks [nm] a' := rfl
      rw [hstep, mergeSessionStartHooks_decomp, mergeSessionStartHooks_decomp]
      simp only [applyAllMatcher_matcher]
      rw [show (nm :: a').filter (fun z => z.matcher == nm.matcher) =
          nm :: a'.filter (fun z => z.matcher == nm.matcher) by simp]
      rw [show (nm :: a').filter (fun z => !(z.matcher == nm.matcher)) =
          a'.filter (fun z => !(z.matcher == nm.matcher)) by simp]
      congr 1
      · exact applyAllMatcher_absorb_pushed nm _ (hcond nm (by simp))
      · refine ih _ (le_trans (List.length_filter_le _ _) hlen) ?_
        intro z hz
        exact hcond z (by simp [List.mem_filter.mp hz |>.1])

/-- Replaying a batch over its own fold changes nothing, provided each
added matcher has nodup hook commands. -/
lemma mergeSessionStartHooks_absorb : ∀ (l a : List GeminiSessionStartMatcher),
    (∀ nm ∈ a, (hookKeys nm.hooks).Nodup) →
    mergeSessionStartHooks (mergeSessionStartHooks l a) a =
      mergeSessionStartHooks l a := by
  intro l
  induction l with
  | nil => intro a hc; exact mergeSessionStartHooks_nil_absorb a.length a le_rfl hc
  | cons m l' ih =>
    intro a hc
    rw [show mergeSessionStartHooks (m :: l') a = _ from
      mergeSessionStartHooks_decomp a m l']
    rw [mergeSessionStartHooks_decomp]
    simp only [applyAllMatcher_matcher]
    congr 1
    · exact applyAllMatcher_absorb_merged _ m
    · refine ih _ ?_
      intro z hz
      exact hc z (List.mem_filter.mp hz |>.1)

/-- C8 (amended): mergeSettings merging is idempotent for every well-formed
existing settings value provided no matcher of the new settings repeats a
hook command: merging the same newSettings into an already-merged value
changes nothing. -/
theorem c8_merge_idempotent_amended (existing newSettings : GeminiSettings)
    (hvalid : validateSettings existing = true)
    (hnodup : ∀ m ∈ newSettingsMatchers newSettings, (hookKeys m.hooks).Nodup) :
    deepMerge (deepMerge existing newSettings) newSettings =
      deepMerge existing newSettings := by
  cases hh : newSettings.hooks with
  | none => simp [deepMerge, hh]
  | some nh =>
    cases hss : nh.SessionStart with
    | none => simp [deepMerge, hh, hss]
    | some newSS =>
      have hcond : ∀ m ∈ newSS, (hookKeys m.hooks).Nodup := by
        intro m hm
        exact hnodup m (by simp [newSettingsMatchers, hh, hss, hm])
      simp only [deepMerge, hh, hss, Option.getD_some, Option.some_bind]
      rw [mergeSessionStartHooks_absorb _ newSS hcond]

/-- C8 counterexample: with the well-formed empty existing settings and a
newSettings whose single pushed matcher repeats one hook command, the
first merge stores the duplicate verbatim and a second merge collapses
it, so the merge is not idempotent for every newSettings value. -/
theorem c8_counterexample :
    validateSettings {} = true ∧
    deepMerge (deepMerge {} dupHookSettings) dupHookSettings ≠
      deepMerge {} dupHookSettings := by decide

/-- Witness for the amended C8 at the concrete jumbo hook settings. -/
theorem c8_witness :
    deepMerge (deepMerge {} jumboHook) jumboHook = deepMerge {} jumboHook :=
  c8_merge_idempotent_amended {} jumboHook rfl (by decide)

/-- C9 counterexample: the settings file exists, the write step fails
leaving partially written content, and the rollback copy in the catch
clause also fails; the call errors, but the content afterwards differs
from the content before the call, so preservation fails as claimed. -/
theorem c9_counterexample :
    wBefore.settings = some "before" ∧
    cexOracle.writeFails = true ∧
    (mergeSettingsModel cexOracle wBefore {}).1 = .error "copy failed" ∧
    (mergeSettingsModel cexOracle wBefore {}).2.settings = some "partial" ∧
    (some "partial" : Option String) ≠ some "before" := by decide

/-- C9 (amended): when the settings file exists and one of the enumerated
fallible steps fails (parse, validation of the existing value, validation
of the merged value, or the write; the merge itself is pure and cannot
throw), mergeSettings propagates that step's error to the caller and the
settings content afterwards equals the content before the call, restored
from the backup copy, provided the rollback operations of the catch
clause themselves succeed. -/
theorem c9_atomic_on_error_amended (o : MergeFsOracle) (w : SettingsWorld)
    (newSettings : GeminiSettings) (c : String)
    (hsettings : w.settings = some c)
    (h1 : o.ensureDirFails = false) (h2 : o.pathExistsBackupCheckFails = false)
    (h3 : o.copyBackupFails = false) (h4 : o.pathExistsReadCheckFails = false)
    (h5 : o.readFails = false)
    (hrb1 : o.pathExistsRollbackFails = false) (hrb2 : o.copyRollbackFails = false) :
    (∀ m, o.parse c = .error m →
      (mergeSettingsModel o w newSettings).1 = .error ("Invalid settings.json: " ++ m) ∧
      (mergeSettingsModel o w newSettings).2.settings = some c) ∧
    (∀ s, o.parse c = .ok s → validateSettings s = false →
      (mergeSettingsModel o w newSettings).1 =
        .error "Invalid settings.json: validation failed" ∧
      (mergeSettingsModel o w newSettings).2.settings = some c) ∧
    (∀ s, o.parse c = .ok s → validateSettings s = true →
      validateSettings (deepMerge s newSettings) = false →
      (mergeSettingsModel o w newSettings).1 = .error "merged settings validation failed" ∧
      (mergeSettingsModel o w newSettings).2.settings = some c) ∧
    (∀ s, o.parse c = .ok s → validateSettings s = true →
      validateSettings (deepMerge s newSettings) = true → o.writeFails = true →
      (mergeSettingsModel o w newSettings).1 = .error "writeFile failed" ∧
      (mergeSettingsModel o w newSettings).2.settings = some c) := by
  obtain ⟨ws, wb⟩ := w
  simp only at hsettings
  subst hsettings
  refine ⟨?_, ?_, ?_, ?_⟩
  · intro m hparse
    constructor <;>
      simp [mergeSettingsModel, h1, h2, h3, mergeGuarded, mergeTry, h4, h5, hparse,
        hrb1, hrb2]
  · intro s hparse hval
    constructor <;>
      simp [mergeSettingsModel, h1, h2, h3, mergeGuarded, mergeTry, mergeWriteBack,
        h4, h5, hparse, hval, hrb1, hrb2]
  · intro s hparse hval hvalm
    constructor <;>
      simp [mergeSettingsModel, h1, h2, h3, mergeGuarded, mergeTry, mergeWriteBack,
        h4, h5, hparse, hval, hvalm, hrb1, hrb2]
  · intro s hparse hval hvalm hw
    constructor <;>
      simp [mergeSettingsModel, h1, h2, h3, mergeGuarded, mergeTry, mergeWriteBack,
        h4, h5, hparse, hval, hvalm, hw, hrb1, hrb2]

/-- Witness for the amended C9 at a concrete world whose settings content
does not parse. -/
theorem c9_witness :
    (mergeSettingsModel badParseOracle wGarbage {}).1 =
      .error ("Invalid settings.json: " ++ "bad") ∧
    (mergeSettingsModel badParseOracle wGarbage {}).2.settings = some "garbage" :=
  (c9_atomic_on_error_amended badParseOracle wGarbage {} "garbage" rfl rfl rfl rfl rfl
    rfl rfl rfl).1 "bad" rfl
